import Mathlib

/-!
Verification of the response-sanitization core and the request-construction
logic of the SVG Animator application (src/main.py), shallowly embedded over
`List Char`.

The sanitizer `clean_svg_response` is a four-step textual repair pipeline
built from three Python regular expressions; each regex is modelled below by
an executable function whose scanning order, greediness and backtracking
mirror the semantics of `re.search` / `re.sub` on the concrete patterns:

  1. `re.search(r'((?:svg)?\s*(<svg.*?</svg>)\s*', DOTALL | IGNORECASE)`
     over a triple-backtick fence  -> `searchFence` / `extractFenceStep`
  2. `.replace(nbsp, ' ').strip()`                 -> `replaceNbsp`, `stripWs`
  3. `re.sub(r'([a-zA-Z0-9\-:]+=)([^"\s>]+)', r'\1"\2"')` -> `fixUnquotedAttrs`
  4. `re.sub(r'\s+([a-zA-Z0-9\-:]+)=""', '')`      -> `removeEmptyAttrs`

Case-insensitivity is modelled by the folding `lowerc`, and `\s` by the set
of code points Python's `re` treats as whitespace in text patterns.
-/

/-- The case folding `re.IGNORECASE` applies to the characters of the fence
pattern: ASCII lowercasing, plus the one non-trivial Unicode equivalence
that involves a letter of the pattern, U+017F LATIN SMALL LETTER LONG S
folding to `s` (so `</ſvg>` closes `</svg>` case-insensitively). No other
code point case-folds to any of the pattern's characters. -/
def lowerc (c : Char) : Char :=
  if 65 ≤ c.toNat ∧ c.toNat ≤ 90 then Char.ofNat (c.toNat + 32)
  else if c.toNat = 383 then 's'
  else c

/-- The code points Python's `\s` (and `str.strip`) treats as whitespace in
text patterns: `\t\n\v\f\r`, the information separators, space, NEL, NBSP
and the Unicode space characters. -/
def isWs (c : Char) : Bool :=
  let n := c.toNat
  decide (9 ≤ n ∧ n ≤ 13) || decide (28 ≤ n ∧ n ≤ 32) || decide (n = 133) ||
  decide (n = 160) || decide (n = 5760) || decide (8192 ≤ n ∧ n ≤ 8202) ||
  decide (n = 8232) || decide (n = 8233) || decide (n = 8239) ||
  decide (n = 8287) || decide (n = 12288)

/-- Case-insensitive prefix test: the pattern `p` (written lowercase) is a
prefix of `s` up to the `IGNORECASE` folding `lowerc`. -/
def prefixCI : List Char → List Char → Bool
  | [], _ => true
  | _ :: _, [] => false
  | p :: ps, c :: cs => (p == lowerc c) && prefixCI ps cs

/-- Greedy `\s*`: drop the maximal leading whitespace run. -/
def dropWs (s : List Char) : List Char := s.dropWhile isWs

/-- The continuation `</svg>\s*` of the fence regex holds at this
position: a case-insensitive closing root tag followed by optional
whitespace and a closing fence. -/
def closerHere (s : List Char) : Bool :=
  prefixCI ("</svg>".toList) s && prefixCI ("```".toList) (dropWs (s.drop 6))

/-- Lazy `.*?</svg>` under DOTALL with the `\s*` continuation: find the
least split where `closerHere` holds and return the matched body together
with the six characters of the closing tag. -/
def findBodyClose : List Char → Option (List Char)
  | [] => none
  | c :: cs =>
    if closerHere (c :: cs) then some ((c :: cs).take 6)
    else (findBodyClose cs).map fun r => c :: r

/-- Match `\s*(<svg.*?</svg>)\s*` starting here, returning the
capture group (the text from `<svg` to the accepted `</svg>`). -/
def matchAfterTag (s : List Char) : Option (List Char) :=
  let t := dropWs s
  if prefixCI ("<svg".toList) t then (findBodyClose (t.drop 4)).map fun r => t.take 4 ++ r
  else none

/-- Try the whole fence pattern at this position: the opening fence, the
optional (greedy, backtracking) `svg` language tag, then the body. -/
def matchAt (s : List Char) : Option (List Char) :=
  if prefixCI ("```".toList) s then
    let r := s.drop 3
    if prefixCI ("svg".toList) r then
      match matchAfterTag (r.drop 3) with
      | some g => some g
      | none => matchAfterTag r
    else matchAfterTag r
  else none

/-- `re.search` of the fence pattern: leftmost position at which the full
backtracking match succeeds, returning capture group 1. -/
def searchFence : List Char → Option (List Char)
  | [] => none
  | c :: cs =>
    match matchAt (c :: cs) with
    | some g => some g
    | none => searchFence cs

/-- Step 1 of `clean_svg_response`: if the fence pattern matches, the
working text becomes the capture group, otherwise it is kept as-is. -/
def extractFenceStep (s : List Char) : List Char :=
  match searchFence s with
  | some g => g
  | none => s

/-- The non-breaking space character `'\xa0'`. -/
def nbsp : Char := Char.ofNat 160

/-- `text.replace('\xa0', ' ')`. -/
def replaceNbsp (s : List Char) : List Char := s.map fun c => if c = nbsp then ' ' else c

/-- Python `str.strip()`: remove leading and trailing whitespace. -/
def stripWs (l : List Char) : List Char :=
  ((l.dropWhile isWs).reverse.dropWhile isWs).reverse

/-- The attribute-name character class `[a-zA-Z0-9\-:]`. -/
def isKeyChar (c : Char) : Bool :=
  let n := c.toNat
  decide (65 ≤ n ∧ n ≤ 90) || decide (97 ≤ n ∧ n ≤ 122) ||
  decide (48 ≤ n ∧ n ≤ 57) || c == '-' || c == ':'

/-- The attribute-value character class `[^"\s>]`. -/
def isValChar (c : Char) : Bool := !(c == '"' || isWs c || c == '>')

/-- Try the unquoted-attribute pattern `([a-zA-Z0-9\-:]+=)([^"\s>]+)` at
this position: on success return the replacement `\1"\2"` and the number of
matched characters. -/
def tryAttr (s : List Char) : Option (List Char × Nat) :=
  match s.takeWhile isKeyChar with
  | [] => none
  | k :: ks =>
    match s.dropWhile isKeyChar with
    | '=' :: r2 =>
      match r2.takeWhile isValChar with
      | [] => none
      | v :: vs =>
        some ((k :: ks) ++ '=' :: '"' :: ((v :: vs) ++ ['"']),
              (k :: ks).length + 1 + (v :: vs).length)
    | _ => none

/-- Fuelled left-to-right `re.sub` scan: at each position try the match
function; on success emit its replacement and continue after the matched
characters, otherwise emit the current character and move one position on.
The fuel is an upper bound on the number of scan steps. -/
def scanSub (m : List Char → Option (List Char × Nat)) : Nat → List Char → List Char
  | 0, _ => []
  | _ + 1, [] => []
  | f + 1, c :: cs =>
    match m (c :: cs) with
    | some (rep, n) => rep ++ scanSub m f ((c :: cs).drop n)
    | none => c :: scanSub m f cs

/-- `re.sub` with match function `m`, replacing all non-overlapping
matches left to right. -/
def scan (m : List Char → Option (List Char × Nat)) (s : List Char) : List Char :=
  scanSub m s.length s

/-- Step 3 of `clean_svg_response`:
`re.sub(r'([a-zA-Z0-9\-:]+=)([^"\s>]+)', r'\1"\2"', text)`. -/
def fixUnquotedAttrs (s : List Char) : List Char := scan tryAttr s

/-- Try the empty-attribute pattern `\s+([a-zA-Z0-9\-:]+)=""` at this
position: on success return the number of matched characters (the
replacement is empty). -/
def tryEmpty (s : List Char) : Option Nat :=
  match s.takeWhile isWs with
  | [] => none
  | w :: ws =>
    match (s.dropWhile isWs).takeWhile isKeyChar with
    | [] => none
    | k :: ks =>
      match (s.dropWhile isWs).dropWhile isKeyChar with
      | '=' :: '"' :: '"' :: _ => some ((w :: ws).length + (k :: ks).length + 3)
      | _ => none

/-- The empty-attribute pattern as a match function with empty
replacement. -/
def tryEmptyR (s : List Char) : Option (List Char × Nat) :=
  (tryEmpty s).map fun n => (([] : List Char), n)

/-- Step 4 of `clean_svg_response`:
`re.sub(r'\s+([a-zA-Z0-9\-:]+)=""', '', text)`. -/
def removeEmptyAttrs (s : List Char) : List Char := scan tryEmptyR s

/-- `clean_svg_response` from src/main.py: `None` and the empty string map
to the empty string; otherwise fence extraction, whitespace normalization,
unquoted-attribute repair and empty-attribute removal run in order. -/
def clean_svg_response (response_text : Option (List Char)) : List Char :=
  match response_text with
  | none => []
  | some t =>
    if t.isEmpty then []
    else removeEmptyAttrs (fixUnquotedAttrs (stripWs (replaceNbsp (extractFenceStep t))))

/-! ## Basic facts about the character classes -/

theorem lowerc_of_isWs {c : Char} (h : isWs c = true) : lowerc c = c := by
  simp only [isWs, Bool.or_eq_true, decide_eq_true_eq] at h
  unfold lowerc
  rw [if_neg (by omega), if_neg (by omega)]

theorem not_isWs_of_isKeyChar {c : Char} (h : isKeyChar c = true) : isWs c = false := by
  cases hw : isWs c
  · rfl
  · exfalso
    simp only [isKeyChar, Bool.or_eq_true, decide_eq_true_eq, beq_iff_eq] at h
    simp only [isWs, Bool.or_eq_true, decide_eq_true_eq] at hw
    rcases h with (((h | h) | h) | h) | h <;> first
      | omega
      | (subst h; revert hw; decide)

/-! ## Equations for the `re.sub` scanner -/

theorem tryAttr_pos {s : List Char} {rep : List Char} {n : Nat}
    (h : tryAttr s = some (rep, n)) : 1 ≤ n := by
  unfold tryAttr at h
  split at h
  · exact Option.noConfusion h
  · split at h
    · split at h
      · exact Option.noConfusion h
      · obtain ⟨-, hn⟩ := Option.some.inj h
        omega
    · exact Option.noConfusion h

theorem tryEmptyR_pos {s : List Char} {rep : List Char} {n : Nat}
    (h : tryEmptyR s = some (rep, n)) : 1 ≤ n := by
  unfold tryEmptyR tryEmpty at h
  split at h
  · exact Option.noConfusion h
  · split at h
    · exact Option.noConfusion h
    · split at h
      · simp only [Option.map_some', Option.some.injEq, Prod.mk.injEq] at h
        omega
      · exact Option.noConfusion h

def MatchPos (m : List Char → Option (List Char × Nat)) : Prop :=
  ∀ s rep n, m s = some (rep, n) → 1 ≤ n

theorem scanSub_congr (m : List Char → Option (List Char × Nat)) (hm : MatchPos m) :
    ∀ f : Nat, ∀ s : List Char, ∀ f' : Nat,
      s.length ≤ f → s.length ≤ f' → scanSub m f s = scanSub m f' s := by
  intro f
  induction f using Nat.strong_induction_on with
  | _ f ih =>
    intro s f' h h'
    cases s with
    | nil => cases f <;> cases f' <;> rfl
    | cons c cs =>
      cases f with
      | zero => simp at h
      | succ g =>
        cases f' with
        | zero => simp at h'
        | succ g' =>
          have hcs : cs.length ≤ g := by simp at h; omega
          have hcs' : cs.length ≤ g' := by simp at h'; omega
          simp only [scanSub]
          cases htry : m (c :: cs) with
          | none =>
            exact congrArg (c :: ·) (ih g (by omega) cs g' hcs hcs')
          | some rn =>
            obtain ⟨rep, n⟩ := rn
            have hn := hm _ _ _ htry
            have hd : ((c :: cs).drop n).length ≤ g := by
              simp [List.length_drop]; omega
            have hd' : ((c :: cs).drop n).length ≤ g' := by
              simp [List.length_drop]; omega
            exact congrArg (rep ++ ·) (ih g (by omega) _ g' hd hd')

theorem scan_nil (m : List Char → Option (List Char × Nat)) : scan m [] = [] := rfl

theorem scan_cons_none {m : List Char → Option (List Char × Nat)} {c : Char} {cs : List Char}
    (h : m (c :: cs) = none) : scan m (c :: cs) = c :: scan m cs := by
  unfold scan
  simp only [List.length_cons, scanSub, h]

theorem scan_cons_some {m : List Char → Option (List Char × Nat)} (hm : MatchPos m)
    {c : Char} {cs rep : List Char} {n : Nat} (h : m (c :: cs) = some (rep, n)) :
    scan m (c :: cs) = rep ++ scan m ((c :: cs).drop n) := by
  have hn := hm _ _ _ h
  unfold scan
  simp only [List.length_cons, scanSub, h]
  congr 1
  exact scanSub_congr m hm cs.length _ _ (by simp [List.length_drop]; omega) le_rfl

/-! ## Helpers about `takeWhile`, `dropWhile` and `prefixCI` -/

theorem takeWhile_all_append {p : Char → Bool} :
    ∀ (a b : List Char), (∀ c ∈ a, p c = true) →
      (∀ c t, b = c :: t → p c = false) →
      (a ++ b).takeWhile p = a ∧ (a ++ b).dropWhile p = b := by
  intro a
  induction a with
  | nil =>
    intro b _ hb
    cases b with
    | nil => simp
    | cons c t => simp [List.takeWhile_cons, List.dropWhile_cons, hb c t rfl]
  | cons x a' ih =>
    intro b ha hb
    have hx : p x = true := ha x (by simp)
    have h2 := ih b (fun c hc => ha c (by simp [hc])) hb
    simp [List.takeWhile_cons, List.dropWhile_cons, hx, h2.1, h2.2]

theorem dropWhile_head_false {p : Char → Bool} :
    ∀ (l : List Char) e t, l.dropWhile p = e :: t → p e = false := by
  intro l
  induction l with
  | nil => intro e t h; exact absurd h (by simp)
  | cons c l' ih =>
    intro e t h
    cases hc : p c
    · rw [List.dropWhile_cons, if_neg (by simp [hc])] at h
      obtain ⟨rfl, -⟩ := List.cons.inj h
      exact hc
    · rw [List.dropWhile_cons, if_pos (by simp [hc])] at h
      exact ih e t h

theorem mem_takeWhile_pred {p : Char → Bool} :
    ∀ (l : List Char) c, c ∈ l.takeWhile p → p c = true := by
  intro l
  induction l with
  | nil => intro c h; simp at h
  | cons x l' ih =>
    intro c h
    cases hx : p x
    · rw [List.takeWhile_cons, if_neg (by simp [hx])] at h
      simp at h
    · rw [List.takeWhile_cons, if_pos (by simp [hx])] at h
      rcases List.mem_cons.mp h with rfl | h
      · exact hx
      · exact ih c h

theorem prefixCI_decomp : ∀ (p s : List Char), prefixCI p s = true →
    ∃ t r, s = t ++ r ∧ t.map lowerc = p := by
  intro p
  induction p with
  | nil => intro s _; exact ⟨[], s, rfl, rfl⟩
  | cons x p' ih =>
    intro s h
    cases s with
    | nil => exact absurd h (by simp [prefixCI])
    | cons c cs =>
      simp only [prefixCI, Bool.and_eq_true, beq_iff_eq] at h
      obtain ⟨t, r, rfl, ht⟩ := ih cs h.2
      exact ⟨c :: t, r, rfl, by simp [ht, ← h.1]⟩

theorem prefixCI_intro : ∀ (t p r : List Char), t.map lowerc = p →
    prefixCI p (t ++ r) = true := by
  intro t
  induction t with
  | nil => intro p r h; subst h; rfl
  | cons c t' ih =>
    intro p r h
    subst h
    simp only [List.map_cons, List.cons_append, prefixCI, Bool.and_eq_true, beq_iff_eq]
    exact ⟨by trivial, ih _ r rfl⟩

theorem dropWs_all_append {a b : List Char} (ha : ∀ c ∈ a, isWs c = true) :
    dropWs (a ++ b) = dropWs b := by
  induction a with
  | nil => rfl
  | cons x a' ih =>
    have hx : isWs x = true := ha x (by simp)
    simp only [dropWs, List.cons_append, List.dropWhile_cons, if_pos (by simp [hx] : isWs x = true)]
    exact ih (fun c hc => ha c (by simp [hc]))

theorem dropWs_cons_of_neg {c : Char} {b : List Char} (h : isWs c = false) :
    dropWs (c :: b) = c :: b := by
  simp [dropWs, List.dropWhile_cons, h]

/-! ## Characterization of the fence search -/

theorem isWs_eq_false_of_lowerc {c d : Char} (h : lowerc c = d) (hd : isWs d = false) :
    isWs c = false := by
  cases hws : isWs c
  · rfl
  · rw [lowerc_of_isWs hws] at h
    subst h
    rw [hws] at hd
    exact hd

theorem findBodyClose_sound : ∀ (l r : List Char), findBodyClose l = some r →
    ∃ a b, l = a ++ b ∧ closerHere b = true ∧ r = a ++ b.take 6 ∧
      (∀ a' b', l = a' ++ b' → a'.length < a.length → closerHere b' = false) := by
  intro l
  induction l with
  | nil => intro r h; exact absurd h (by simp [findBodyClose])
  | cons c cs ih =>
    intro r h
    by_cases hc : closerHere (c :: cs) = true
    · simp only [findBodyClose, if_pos hc, Option.some.injEq] at h
      refine ⟨[], c :: cs, rfl, hc, h.symm, ?_⟩
      intro a' b' _ hlen
      simp at hlen
    · simp only [findBodyClose, if_neg hc] at h
      cases hfb : findBodyClose cs with
      | none => rw [hfb] at h; exact absurd h (by simp)
      | some r' =>
        rw [hfb] at h
        simp only [Option.map_some', Option.some.injEq] at h
        obtain ⟨a, b, rfl, hclose, hr', hmin⟩ := ih r' hfb
        refine ⟨c :: a, b, rfl, hclose, ?_, ?_⟩
        · rw [← h, hr']; rfl
        · intro a' b' heq hlen
          cases a' with
          | nil =>
            simp only [List.nil_append] at heq
            rw [← heq]
            simpa using hc
          | cons x a'' =>
            simp only [List.cons_append, List.cons.injEq] at heq
            exact hmin a'' b' heq.2 (by simpa using hlen)

theorem matchAfterTag_sound {s g : List Char} (h : matchAfterTag s = some g) :
    ∃ w1 o4 mid c6 w2 f2 post,
      s = w1 ++ o4 ++ mid ++ c6 ++ w2 ++ f2 ++ post ∧
      (∀ c ∈ w1, isWs c = true) ∧
      o4.map lowerc = "<svg".toList ∧
      c6.map lowerc = "</svg>".toList ∧
      (∀ c ∈ w2, isWs c = true) ∧
      f2.map lowerc = "```".toList ∧
      g = o4 ++ mid ++ c6 ∧
      closerHere (c6 ++ w2 ++ f2 ++ post) = true ∧
      (∀ a' b', mid ++ c6 ++ w2 ++ f2 ++ post = a' ++ b' →
        a'.length < mid.length → closerHere b' = false) := by
  unfold matchAfterTag at h
  by_cases hpre : prefixCI ("<svg".toList) (dropWs s) = true
  · rw [if_pos hpre] at h
    obtain ⟨o4, t4, ht, ho4⟩ := prefixCI_decomp _ _ hpre
    have ho4len : o4.length = 4 := by
      have := congrArg List.length ho4
      simpa using this
    have htake : (dropWs s).take 4 = o4 := by
      rw [ht, ← ho4len, List.take_left]
    have hdrop : (dropWs s).drop 4 = t4 := by
      rw [ht, ← ho4len, List.drop_left]
    rw [htake, hdrop] at h
    cases hfb : findBodyClose t4 with
    | none => rw [hfb] at h; exact absurd h (by simp)
    | some r =>
      rw [hfb] at h
      simp only [Option.map_some', Option.some.injEq] at h
      obtain ⟨a, b, rfl, hclose, hr, hmin⟩ := findBodyClose_sound _ _ hfb
      have hb6 : prefixCI ("</svg>".toList) b = true ∧
          prefixCI ("```".toList) (dropWs (b.drop 6)) = true := by
        simpa [closerHere, Bool.and_eq_true] using hclose
      obtain ⟨c6, b6, rfl, hc6⟩ := prefixCI_decomp _ _ hb6.1
      have hc6len : c6.length = 6 := by
        have := congrArg List.length hc6
        simpa using this
      have htake6 : (c6 ++ b6).take 6 = c6 := by rw [← hc6len, List.take_left]
      have hdrop6 : (c6 ++ b6).drop 6 = b6 := by rw [← hc6len, List.drop_left]
      rw [hdrop6] at hb6
      obtain ⟨f2, post, hb6eq, hf2⟩ := prefixCI_decomp _ _ hb6.2
      have hw2mem : ∀ c ∈ b6.takeWhile isWs, isWs c = true := fun c hc =>
        mem_takeWhile_pred _ c hc
      have hw1mem : ∀ c ∈ s.takeWhile isWs, isWs c = true := fun c hc =>
        mem_takeWhile_pred _ c hc
      set w2 : List Char := b6.takeWhile isWs with hw2
      have hsplit : b6 = w2 ++ (f2 ++ post) := by
        rw [hw2, ← hb6eq]
        exact (List.takeWhile_append_dropWhile (p := isWs) (l := b6)).symm
      clear_value w2
      refine ⟨s.takeWhile isWs, o4, a, c6, w2, f2, post, ?_, hw1mem, ho4, hc6, hw2mem, hf2,
        ?_, ?_, ?_⟩
      · conv_lhs => rw [← List.takeWhile_append_dropWhile (p := isWs) (l := s)]
        rw [show s.dropWhile isWs = dropWs s from rfl, ht, hsplit]
        simp [List.append_assoc]
      · rw [← h, hr, htake6]
        simp [List.append_assoc]
      · have hback : c6 ++ w2 ++ f2 ++ post = c6 ++ b6 := by
          rw [hsplit]
          simp [List.append_assoc]
        rw [hback]
        exact hclose
      · intro a' b' heq hlen
        refine hmin a' b' ?_ hlen
        rw [hsplit]
        simpa only [List.append_assoc] using heq
  · rw [if_neg hpre] at h
    exact absurd h (by simp)

theorem matchAt_sound {s g : List Char} (h : matchAt s = some g) :
    ∃ f1 t rest, s = f1 ++ t ++ rest ∧ f1.map lowerc = "```".toList ∧
      (t = [] ∨ t.map lowerc = "svg".toList) ∧ matchAfterTag rest = some g := by
  unfold matchAt at h
  by_cases h3 : prefixCI ("```".toList) s = true
  · rw [if_pos h3] at h
    obtain ⟨f1, r, rfl, hf1⟩ := prefixCI_decomp _ _ h3
    have hf1len : f1.length = 3 := by
      have := congrArg List.length hf1
      simpa using this
    have hdrop3 : (f1 ++ r).drop 3 = r := by rw [← hf1len, List.drop_left]
    rw [hdrop3] at h
    by_cases hsvg : prefixCI ("svg".toList) r = true
    · rw [if_pos hsvg] at h
      obtain ⟨t, r3, rfl, ht⟩ := prefixCI_decomp _ _ hsvg
      have htlen : t.length = 3 := by
        have := congrArg List.length ht
        simpa using this
      have hdrop3' : (t ++ r3).drop 3 = r3 := by rw [← htlen, List.drop_left]
      rw [hdrop3'] at h
      cases hA : matchAfterTag r3 with
      | some g' =>
        rw [hA] at h
        obtain rfl : g' = g := by simpa using h
        exact ⟨f1, t, r3, by simp [List.append_assoc], hf1, Or.inr ht, hA⟩
      | none =>
        rw [hA] at h
        exact ⟨f1, [], t ++ r3, by simp, hf1, Or.inl rfl, h⟩
    · rw [if_neg hsvg] at h
      exact ⟨f1, [], r, by simp, hf1, Or.inl rfl, h⟩
  · rw [if_neg h3] at h
    exact absurd h (by simp)

theorem searchFence_sound : ∀ (l : List Char) (g : List Char), searchFence l = some g →
    ∃ pre s', l = pre ++ s' ∧ matchAt s' = some g := by
  intro l
  induction l with
  | nil => intro g h; exact absurd h (by simp [searchFence])
  | cons c cs ih =>
    intro g h
    unfold searchFence at h
    cases hm : matchAt (c :: cs) with
    | some g' =>
      rw [hm] at h
      obtain rfl : g' = g := by simpa using h
      exact ⟨[], c :: cs, rfl, hm⟩
    | none =>
      rw [hm] at h
      obtain ⟨pre, s', rfl, hmat⟩ := ih g h
      exact ⟨c :: pre, s', rfl, hmat⟩

/-- The claim-side notion of a fenced SVG block inside `text`: somewhere in
`text` there is a triple-backtick fence, an optional `svg` language tag
(case-insensitive), optional whitespace, then content `inner` that begins
with the opening root tag and ends with the matching closing tag, followed
by optional whitespace and a closing fence. -/
def FencedBlock (text inner : List Char) : Prop :=
  ∃ pre f1 t w1 o4 mid c6 w2 f2 post,
    text = pre ++ f1 ++ t ++ w1 ++ inner ++ w2 ++ f2 ++ post ∧
    f1.map lowerc = "```".toList ∧
    (t = [] ∨ t.map lowerc = "svg".toList) ∧
    (∀ c ∈ w1, isWs c = true) ∧
    inner = o4 ++ mid ++ c6 ∧
    o4.map lowerc = "<svg".toList ∧
    c6.map lowerc = "</svg>".toList ∧
    (∀ c ∈ w2, isWs c = true) ∧
    f2.map lowerc = "```".toList

theorem searchFence_fencedBlock {l g : List Char} (h : searchFence l = some g) :
    FencedBlock l g := by
  obtain ⟨pre, s', rfl, hmat⟩ := searchFence_sound _ _ h
  obtain ⟨f1, t, rest, rfl, hf1, ht, hA⟩ := matchAt_sound hmat
  obtain ⟨w1, o4, mid, c6, w2, f2, post, rfl, hw1, ho4, hc6, hw2, hf2, hg, -, -⟩ :=
    matchAfterTag_sound hA
  refine ⟨pre, f1, t, w1, o4, mid, c6, w2, f2, post, ?_, hf1, ht, hw1, hg, ho4, hc6, hw2, hf2⟩
  rw [hg]
  simp [List.append_assoc]

theorem exists_cons_of_map_lowerc {l : List Char} {d : Char} {ds : List Char}
    (h : l.map lowerc = d :: ds) (hd : isWs d = false) :
    ∃ c l', l = c :: l' ∧ isWs c = false ∧ lowerc c = d := by
  cases l with
  | nil => exact absurd h (by simp)
  | cons c l' =>
    simp only [List.map_cons, List.cons.injEq] at h
    exact ⟨c, l', rfl, isWs_eq_false_of_lowerc h.1 hd, h.1⟩

theorem closerHere_intro {c6 w2 f2 post : List Char}
    (hc6 : c6.map lowerc = "</svg>".toList)
    (hw2 : ∀ c ∈ w2, isWs c = true)
    (hf2 : f2.map lowerc = "```".toList) :
    closerHere (c6 ++ (w2 ++ (f2 ++ post))) = true := by
  have hc6len : c6.length = 6 := by
    have := congrArg List.length hc6
    simpa using this
  obtain ⟨c, f2', rfl, hcws, -⟩ := exists_cons_of_map_lowerc hf2 (by decide)
  unfold closerHere
  rw [Bool.and_eq_true]
  constructor
  · exact prefixCI_intro _ _ _ hc6
  · rw [List.drop_left' hc6len, dropWs_all_append hw2, List.cons_append,
      dropWs_cons_of_neg hcws, ← List.cons_append]
    exact prefixCI_intro _ _ _ hf2

theorem findBodyClose_isSome : ∀ (a b : List Char), closerHere b = true →
    (findBodyClose (a ++ b)).isSome = true := by
  intro a
  induction a with
  | nil =>
    intro b h
    cases b with
    | nil => exact absurd h (by decide)
    | cons c cs => simp [findBodyClose, if_pos h]
  | cons c a' ih =>
    intro b h
    rw [List.cons_append]
    by_cases hc : closerHere (c :: (a' ++ b)) = true
    · unfold findBodyClose
      rw [if_pos hc]
      rfl
    · unfold findBodyClose
      rw [if_neg hc, Option.isSome_map']
      exact ih b h

theorem matchAfterTag_isSome {w1 o4 mid c6 w2 f2 post : List Char}
    (hw1 : ∀ c ∈ w1, isWs c = true)
    (ho4 : o4.map lowerc = "<svg".toList)
    (hc6 : c6.map lowerc = "</svg>".toList)
    (hw2 : ∀ c ∈ w2, isWs c = true)
    (hf2 : f2.map lowerc = "```".toList) :
    (matchAfterTag (w1 ++ (o4 ++ (mid ++ (c6 ++ (w2 ++ (f2 ++ post))))))).isSome = true := by
  have ho4len : o4.length = 4 := by
    have := congrArg List.length ho4
    simpa using this
  obtain ⟨c, o4', ho4eq, hcws, -⟩ := exists_cons_of_map_lowerc ho4 (by decide)
  have hdw : dropWs (w1 ++ (o4 ++ (mid ++ (c6 ++ (w2 ++ (f2 ++ post)))))) =
      o4 ++ (mid ++ (c6 ++ (w2 ++ (f2 ++ post)))) := by
    rw [dropWs_all_append hw1, ho4eq]
    exact dropWs_cons_of_neg hcws
  unfold matchAfterTag
  rw [hdw, if_pos (prefixCI_intro _ _ _ ho4), List.drop_left' ho4len, Option.isSome_map']
  exact findBodyClose_isSome mid (c6 ++ (w2 ++ (f2 ++ post))) (closerHere_intro hc6 hw2 hf2)

theorem prefixCI_svg_false {w1 o4 rest : List Char}
    (hw1 : ∀ c ∈ w1, isWs c = true)
    (ho4 : o4.map lowerc = "<svg".toList) :
    prefixCI ("svg".toList) (w1 ++ (o4 ++ rest)) = false := by
  cases w1 with
  | nil =>
    obtain ⟨c, o4', rfl, -, hlc⟩ := exists_cons_of_map_lowerc ho4 (by decide)
    simp only [List.nil_append, List.cons_append]
    show (('s' == lowerc c) && _) = false
    rw [hlc]
    rfl
  | cons x w1' =>
    have hx : isWs x = true := hw1 x (by simp)
    simp only [List.cons_append]
    show (('s' == lowerc x) && _) = false
    rw [lowerc_of_isWs hx]
    have : ('s' == x) = false := by
      cases hb : ('s' == x) with
      | false => rfl
      | true =>
        have : 's' = x := by simpa using hb
        rw [← this] at hx
        exact absurd hx (by decide)
    rw [this]
    rfl

theorem matchAt_isSome {f1 t w1 o4 mid c6 w2 f2 post : List Char}
    (hf1 : f1.map lowerc = "```".toList)
    (ht : t = [] ∨ t.map lowerc = "svg".toList)
    (hw1 : ∀ c ∈ w1, isWs c = true)
    (ho4 : o4.map lowerc = "<svg".toList)
    (hc6 : c6.map lowerc = "</svg>".toList)
    (hw2 : ∀ c ∈ w2, isWs c = true)
    (hf2 : f2.map lowerc = "```".toList) :
    (matchAt (f1 ++ (t ++ (w1 ++ (o4 ++ (mid ++ (c6 ++ (w2 ++ (f2 ++ post))))))))).isSome = true := by
  have hf1len : f1.length = 3 := by
    have := congrArg List.length hf1
    simpa using this
  unfold matchAt
  rw [if_pos (prefixCI_intro _ _ _ hf1), List.drop_left' hf1len]
  rcases ht with rfl | ht
  · simp only [List.nil_append]
    rw [if_neg (by rw [prefixCI_svg_false hw1 ho4]; simp)]
    exact matchAfterTag_isSome hw1 ho4 hc6 hw2 hf2
  · have htlen : t.length = 3 := by
      have := congrArg List.length ht
      simpa using this
    rw [if_pos (prefixCI_intro _ _ _ ht), List.drop_left' htlen]
    have hA := @matchAfterTag_isSome w1 o4 mid c6 w2 f2 post hw1 ho4 hc6 hw2 hf2
    obtain ⟨g, hg⟩ := Option.isSome_iff_exists.mp hA
    rw [hg]
    rfl

theorem searchFence_isSome : ∀ (pre s' : List Char), (matchAt s').isSome = true →
    (searchFence (pre ++ s')).isSome = true := by
  intro pre
  induction pre with
  | nil =>
    intro s' h
    cases s' with
    | nil => exact absurd h (by decide)
    | cons c cs =>
      rw [List.nil_append]
      unfold searchFence
      cases hm : matchAt (c :: cs) with
      | some g => rfl
      | none => rw [hm] at h; exact absurd h (by simp)
  | cons c pre' ih =>
    intro s' h
    rw [List.cons_append]
    unfold searchFence
    cases hm : matchAt (c :: (pre' ++ s')) with
    | some g => rfl
    | none => exact ih s' h

theorem fencedBlock_isSome {text inner : List Char} (h : FencedBlock text inner) :
    (searchFence text).isSome = true := by
  obtain ⟨pre, f1, t, w1, o4, mid, c6, w2, f2, post, heq, hf1, ht, hw1, hinner, ho4, hc6, hw2, hf2⟩ := h
  rw [heq, hinner]
  simp only [List.append_assoc]
  exact searchFence_isSome pre _ (matchAt_isSome hf1 ht hw1 ho4 hc6 hw2 hf2)

/-! ## Characterization of the unquoted-attribute rewrite -/

theorem tryAttr_matchPos : MatchPos tryAttr := fun _ _ _ h => tryAttr_pos h

theorem tryEmptyR_matchPos : MatchPos tryEmptyR := fun _ _ _ h => tryEmptyR_pos h

theorem tryAttr_none_head {c : Char} {l : List Char} (h : isKeyChar c = false) :
    tryAttr (c :: l) = none := by
  unfold tryAttr
  rw [List.takeWhile_cons, if_neg (by simp [h])]

theorem takeWhile_append_stop {p : Char → Bool} {z : Char} (hz : p z = false) :
    ∀ (l rest : List Char), (l ++ z :: rest).takeWhile p = l.takeWhile p ∧
      (l ++ z :: rest).dropWhile p = l.dropWhile p ++ z :: rest := by
  intro l
  induction l with
  | nil =>
    intro rest
    constructor
    · simp [List.takeWhile_cons, hz]
    · simp [List.dropWhile_cons, hz]
  | cons x l' ih =>
    intro rest
    cases hx : p x
    · constructor
      · simp [List.takeWhile_cons, hx]
      · simp [List.dropWhile_cons, hx]
    · constructor
      · simp only [List.cons_append, List.takeWhile_cons, hx, if_pos]
        exact congrArg (x :: ·) (ih rest).1
      · simp only [List.cons_append, List.dropWhile_cons, hx, if_pos]
        exact (ih rest).2

theorem tryAttr_quoted_none {x : Char} {k' rest : List Char}
    (hk : ∀ c ∈ x :: k', isKeyChar c = true) :
    tryAttr ((x :: k') ++ '=' :: '"' :: rest) = none := by
  have hsplit := takeWhile_all_append (p := isKeyChar) (x :: k') ('=' :: '"' :: rest) hk
    (fun c t h => by injection h with h1 _; subst h1; decide)
  have hq : isValChar '"' = false := by decide
  simp only [tryAttr, hsplit.1, hsplit.2, List.takeWhile_cons, hq, if_neg, Bool.false_eq_true,
    ite_false]

theorem tryAttr_match {k v post : List Char}
    (hk : k ≠ []) (hkall : ∀ c ∈ k, isKeyChar c = true)
    (hv : v ≠ []) (hvall : ∀ c ∈ v, isValChar c = true)
    (hpost : ∀ c t, post = c :: t → isValChar c = false) :
    tryAttr (k ++ '=' :: (v ++ post)) =
      some (k ++ '=' :: '"' :: (v ++ ['"']), k.length + 1 + v.length) := by
  obtain ⟨x, k', rfl⟩ := List.exists_cons_of_ne_nil hk
  obtain ⟨y, v', rfl⟩ := List.exists_cons_of_ne_nil hv
  have hsplitk := takeWhile_all_append (p := isKeyChar) (x :: k') ('=' :: ((y :: v') ++ post)) hkall
    (fun c t h => by injection h with h1 _; subst h1; decide)
  have hsplitv := takeWhile_all_append (p := isValChar) (y :: v') post hvall hpost
  simp only [tryAttr, hsplitk.1, hsplitk.2, hsplitv.1]

theorem fixUnquoted_emit_all {pre : List Char} (hpre : ∀ c ∈ pre, isKeyChar c = false) :
    ∀ rest, fixUnquotedAttrs (pre ++ rest) = pre ++ fixUnquotedAttrs rest := by
  induction pre with
  | nil => intro rest; rfl
  | cons c pre' ih =>
    intro rest
    have hc : isKeyChar c = false := hpre c (by simp)
    rw [List.cons_append]
    unfold fixUnquotedAttrs
    rw [scan_cons_none (tryAttr_none_head hc)]
    exact congrArg (c :: ·) (ih (fun d hd => hpre d (by simp [hd])) rest)

theorem fixUnquoted_rewrites_one {k v post : List Char}
    (hk : k ≠ []) (hkall : ∀ c ∈ k, isKeyChar c = true)
    (hv : v ≠ []) (hvall : ∀ c ∈ v, isValChar c = true)
    (hpost : ∀ c t, post = c :: t → isValChar c = false) :
    fixUnquotedAttrs (k ++ '=' :: (v ++ post)) =
      k ++ '=' :: '"' :: v ++ '"' :: fixUnquotedAttrs post := by
  obtain ⟨x, k', rfl⟩ := List.exists_cons_of_ne_nil hk
  have hm := @tryAttr_match (x :: k') v post hk hkall hv hvall hpost
  have hcons : (x :: k') ++ '=' :: (v ++ post) = x :: (k' ++ '=' :: (v ++ post)) := by
    simp
  unfold fixUnquotedAttrs
  rw [hcons] at hm ⊢
  rw [scan_cons_some tryAttr_matchPos hm]
  have hdrop : (x :: (k' ++ '=' :: (v ++ post))).drop ((x :: k').length + 1 + v.length) = post := by
    have hshape : x :: (k' ++ '=' :: (v ++ post)) = ((x :: k') ++ '=' :: v) ++ post := by
      simp
    rw [hshape]
    exact List.drop_left' (by simp; omega)
  rw [hdrop]
  simp [List.append_assoc]

/-- `v` contains no consecutive triple "key character, '=', value
character" (the shape step 3 would rewrite inside it). -/
def noKev : List Char → Bool
  | [] => true
  | [_] => true
  | [_, _] => true
  | c :: e :: d :: rest => (!(isKeyChar c && e == '=' && isValChar d)) && noKev (e :: d :: rest)

theorem noKev_tail : ∀ (a : Char) (l : List Char), noKev (a :: l) = true → noKev l = true := by
  intro a l h
  match l with
  | [] => rfl
  | [x] => rfl
  | x :: y :: rest =>
    simp only [noKev, Bool.and_eq_true] at h
    exact h.2

theorem noKev_split : ∀ (x : List Char) {c d : Char} {y : List Char},
    noKev (x ++ c :: '=' :: d :: y) = true → (isKeyChar c && isValChar d) = false := by
  intro x
  induction x with
  | nil =>
    intro c d y h
    simp only [List.nil_append, noKev, Bool.and_eq_true, Bool.not_eq_true'] at h
    have h1 := h.1
    simpa using h1
  | cons a x' ih =>
    intro c d y h
    rw [List.cons_append] at h
    exact ih (noKev_tail a _ h)

theorem fixUnquoted_cons_none {c : Char} {cs : List Char} (h : tryAttr (c :: cs) = none) :
    fixUnquotedAttrs (c :: cs) = c :: fixUnquotedAttrs cs := scan_cons_none h

theorem removeEmpty_cons_none {c : Char} {cs : List Char} (h : tryEmptyR (c :: cs) = none) :
    removeEmptyAttrs (c :: cs) = c :: removeEmptyAttrs cs := scan_cons_none h

theorem tryAttr_none_cond {s : List Char}
    (h : ∀ r2, s.takeWhile isKeyChar ≠ [] → s.dropWhile isKeyChar = '=' :: r2 →
      r2.takeWhile isValChar = []) :
    tryAttr s = none := by
  unfold tryAttr
  cases hK : s.takeWhile isKeyChar with
  | nil => rfl
  | cons k ks =>
    cases hD : s.dropWhile isKeyChar with
    | nil => rfl
    | cons d r2 =>
      by_cases hd : d = '='
      · subst hd
        simp only [h r2 (by rw [hK]; simp) hD]
      · split
        · rfl
        · split
          · rename_i heq2
            exact absurd (List.cons.inj heq2).1 hd
          · rfl

theorem tryAttr_none_in_val (e : Char) (v2 post : List Char)
    (hnk : noKev (e :: v2) = true) :
    tryAttr ((e :: v2) ++ '"' :: post) = none := by
  apply tryAttr_none_cond
  intro r2 hKne hD
  have hstop := takeWhile_append_stop (p := isKeyChar) (z := '"') (by decide) (e :: v2) post
  rw [hstop.2] at hD
  have hkey_e : isKeyChar e = true := by
    by_contra hne
    rw [hstop.1] at hKne
    apply hKne
    rw [List.takeWhile_cons, if_neg (by simpa using hne)]
  cases hDv : (e :: v2).dropWhile isKeyChar with
  | nil =>
    rw [hDv] at hD
    simp at hD
  | cons d0 D' =>
    rw [hDv, List.cons_append] at hD
    obtain ⟨hd0, hr2⟩ := List.cons.inj hD
    subst hd0
    subst hr2
    cases D' with
    | nil =>
      rw [List.nil_append, List.takeWhile_cons, if_neg (by decide)]
    | cons d D'' =>
      have hK0ne : (e :: v2).takeWhile isKeyChar ≠ [] := by
        rw [List.takeWhile_cons, if_pos (by simp [hkey_e])]
        simp
      have hlastkey : isKeyChar (((e :: v2).takeWhile isKeyChar).getLast hK0ne) = true :=
        mem_takeWhile_pred _ _ (List.getLast_mem hK0ne)
      have hdecomp : e :: v2 =
          ((e :: v2).takeWhile isKeyChar).dropLast ++
            (((e :: v2).takeWhile isKeyChar).getLast hK0ne :: '=' :: d :: D'') := by
        conv_lhs => rw [← List.takeWhile_append_dropWhile (p := isKeyChar) (l := e :: v2)]
        rw [hDv]
        conv_lhs => rw [show (e :: v2).takeWhile isKeyChar =
          ((e :: v2).takeWhile isKeyChar).dropLast ++
            [((e :: v2).takeWhile isKeyChar).getLast hK0ne] from
          (List.dropLast_append_getLast hK0ne).symm]
        simp [List.append_assoc]
      rw [hdecomp] at hnk
      have hsplit := noKev_split _ hnk
      have hdval : isValChar d = false := by
        rw [hlastkey] at hsplit
        simpa using hsplit
      rw [List.cons_append, List.takeWhile_cons, if_neg (by simp [hdval])]

theorem fixUnquoted_val_walk : ∀ (v post : List Char), noKev v = true →
    fixUnquotedAttrs (v ++ '"' :: post) = v ++ '"' :: fixUnquotedAttrs post := by
  intro v
  induction v with
  | nil =>
    intro post _
    rw [List.nil_append]
    rw [fixUnquoted_cons_none (tryAttr_none_head (by decide))]
    rfl
  | cons e v' ih =>
    intro post hnk
    have hnone := tryAttr_none_in_val e v' post hnk
    rw [List.cons_append] at hnone ⊢
    rw [fixUnquoted_cons_none hnone]
    rw [ih post (noKev_tail e v' hnk)]
    rfl

theorem fixUnquoted_key_quote : ∀ (k rest : List Char), (∀ c ∈ k, isKeyChar c = true) →
    fixUnquotedAttrs (k ++ '=' :: '"' :: rest) = k ++ '=' :: '"' :: fixUnquotedAttrs rest := by
  intro k
  induction k with
  | nil =>
    intro rest _
    rw [List.nil_append]
    rw [fixUnquoted_cons_none (tryAttr_none_head (by decide))]
    rw [fixUnquoted_cons_none (tryAttr_none_head (by decide))]
    rfl
  | cons x k' ih =>
    intro rest hk
    have hnone := @tryAttr_quoted_none x k' rest hk
    rw [List.cons_append] at hnone ⊢
    rw [fixUnquoted_cons_none hnone]
    rw [ih rest (fun c hc => hk c (by simp [hc]))]
    rfl

theorem fixUnquoted_quoted_id {pre k v post : List Char}
    (hpre : ∀ c ∈ pre, isKeyChar c = false)
    (hkall : ∀ c ∈ k, isKeyChar c = true)
    (_hq : '"' ∉ v)
    (hnk : noKev v = true) :
    fixUnquotedAttrs (pre ++ k ++ '=' :: '"' :: (v ++ '"' :: post)) =
      pre ++ k ++ '=' :: '"' :: (v ++ '"' :: fixUnquotedAttrs post) := by
  have h1 : fixUnquotedAttrs (pre ++ (k ++ '=' :: '"' :: (v ++ '"' :: post))) =
      pre ++ fixUnquotedAttrs (k ++ '=' :: '"' :: (v ++ '"' :: post)) :=
    fixUnquoted_emit_all hpre _
  rw [List.append_assoc, h1, fixUnquoted_key_quote _ _ hkall, fixUnquoted_val_walk _ _ hnk]
  simp [List.append_assoc]

theorem isValChar_of_isKeyChar {c : Char} (h : isKeyChar c = true) : isValChar c = true := by
  cases hv : isValChar c
  · exfalso
    simp only [isValChar, Bool.not_eq_false', Bool.or_eq_true, beq_iff_eq] at hv
    rcases hv with (hv | hv) | hv
    · subst hv; exact absurd h (by decide)
    · rw [not_isWs_of_isKeyChar h] at hv; exact absurd hv (by decide)
    · subst hv; exact absurd h (by decide)
  · rfl

theorem isKeyChar_eq_false_of_isValChar {z : Char} (hz : isValChar z = false) :
    isKeyChar z = false := by
  cases hk : isKeyChar z
  · rfl
  · rw [isValChar_of_isKeyChar hk] at hz
    exact absurd hz (by decide)

theorem tryAttr_none_of_key_nil {s : List Char} (h : s.takeWhile isKeyChar = []) :
    tryAttr s = none := by
  unfold tryAttr
  rw [h]

/-- A character that cannot occur in an attribute value is a barrier for the
unquoted-attribute pattern: a match attempt before it neither sees past it
(the match result does not depend on the text after the barrier) nor
consumes it. -/
theorem tryAttr_stop {z : Char} (hz : isValChar z = false) (x y : List Char) :
    tryAttr (x ++ z :: y) = tryAttr (x ++ [z]) ∧
      ∀ rep n, tryAttr (x ++ z :: y) = some (rep, n) → n ≤ x.length := by
  have hzk : isKeyChar z = false := isKeyChar_eq_false_of_isValChar hz
  have hKy := takeWhile_append_stop hzk x y
  have hK1 := takeWhile_append_stop hzk x []
  cases hK : x.takeWhile isKeyChar with
  | nil =>
    have h1 : tryAttr (x ++ z :: y) = none := tryAttr_none_of_key_nil (by rw [hKy.1, hK])
    have h2 : tryAttr (x ++ [z]) = none := tryAttr_none_of_key_nil (by rw [hK1.1, hK])
    exact ⟨by rw [h1, h2], fun rep n h => by rw [h1] at h; exact Option.noConfusion h⟩
  | cons k ks =>
    cases hD : x.dropWhile isKeyChar with
    | nil =>
      have hzeq : z ≠ '=' := by
        intro he
        rw [he] at hz
        exact absurd hz (by decide)
      have h1 : tryAttr (x ++ z :: y) = none := by
        apply tryAttr_none_cond
        intro r2 _ hDe
        rw [hKy.2, hD, List.nil_append] at hDe
        exact absurd (List.cons.inj hDe).1 hzeq
      have h2 : tryAttr (x ++ [z]) = none := by
        apply tryAttr_none_cond
        intro r2 _ hDe
        rw [hK1.2, hD, List.nil_append] at hDe
        exact absurd (List.cons.inj hDe).1 hzeq
      exact ⟨by rw [h1, h2], fun rep n h => by rw [h1] at h; exact Option.noConfusion h⟩
    | cons d r2x =>
      have hx : x = x.takeWhile isKeyChar ++ x.dropWhile isKeyChar :=
        (List.takeWhile_append_dropWhile (p := isKeyChar) (l := x)).symm
      by_cases hd : d = '='
      · subst hd
        have hVy := takeWhile_append_stop hz r2x y
        have hV1 := takeWhile_append_stop hz r2x []
        cases hV : r2x.takeWhile isValChar with
        | nil =>
          have h1 : tryAttr (x ++ z :: y) = none := by
            apply tryAttr_none_cond
            intro r2 _ hDe
            rw [hKy.2, hD, List.cons_append] at hDe
            obtain ⟨-, hr2⟩ := List.cons.inj hDe
            rw [← hr2, hVy.1, hV]
          have h2 : tryAttr (x ++ [z]) = none := by
            apply tryAttr_none_cond
            intro r2 _ hDe
            rw [hK1.2, hD, List.cons_append] at hDe
            obtain ⟨-, hr2⟩ := List.cons.inj hDe
            rw [← hr2, hV1.1, hV]
          exact ⟨by rw [h1, h2], fun rep n h => by rw [h1] at h; exact Option.noConfusion h⟩
        | cons v vs =>
          have hr2x : r2x = (v :: vs) ++ r2x.dropWhile isValChar := by
            conv_lhs => rw [← List.takeWhile_append_dropWhile (p := isValChar) (l := r2x)]
            rw [hV]
          have hpost_y : ∀ c t, r2x.dropWhile isValChar ++ z :: y = c :: t →
              isValChar c = false := by
            intro c t h
            cases hR : r2x.dropWhile isValChar with
            | nil =>
              rw [hR, List.nil_append] at h
              obtain ⟨he, -⟩ := List.cons.inj h
              rw [← he]
              exact hz
            | cons e es =>
              rw [hR, List.cons_append] at h
              obtain ⟨he, -⟩ := List.cons.inj h
              rw [← he]
              exact dropWhile_head_false r2x e es hR
          have hpost_1 : ∀ c t, r2x.dropWhile isValChar ++ [z] = c :: t →
              isValChar c = false := by
            intro c t h
            cases hR : r2x.dropWhile isValChar with
            | nil =>
              rw [hR, List.nil_append] at h
              obtain ⟨he, -⟩ := List.cons.inj h
              rw [← he]
              exact hz
            | cons e es =>
              rw [hR, List.cons_append] at h
              obtain ⟨he, -⟩ := List.cons.inj h
              rw [← he]
              exact dropWhile_head_false r2x e es hR
          have hkall : ∀ c ∈ (k :: ks : List Char), isKeyChar c = true := by
            intro c hc
            exact mem_takeWhile_pred x c (by rw [hK]; exact hc)
          have hvall : ∀ c ∈ (v :: vs : List Char), isValChar c = true := by
            intro c hc
            exact mem_takeWhile_pred r2x c (by rw [hV]; exact hc)
          have hsome_y := @tryAttr_match (k :: ks) (v :: vs)
            (r2x.dropWhile isValChar ++ z :: y) (by simp) hkall (by simp) hvall hpost_y
          have hsome_1 := @tryAttr_match (k :: ks) (v :: vs)
            (r2x.dropWhile isValChar ++ [z]) (by simp) hkall (by simp) hvall hpost_1
          have he_y : x ++ z :: y =
              (k :: ks) ++ '=' :: ((v :: vs) ++ (r2x.dropWhile isValChar ++ z :: y)) := by
            conv_lhs => rw [hx, hK, hD, hr2x]
            simp [List.append_assoc]
          have he_1 : x ++ [z] =
              (k :: ks) ++ '=' :: ((v :: vs) ++ (r2x.dropWhile isValChar ++ [z])) := by
            conv_lhs => rw [hx, hK, hD, hr2x]
            simp [List.append_assoc]
          have h1 : tryAttr (x ++ z :: y) =
              some ((k :: ks) ++ '=' :: '"' :: ((v :: vs) ++ ['"']),
                (k :: ks).length + 1 + (v :: vs).length) := by
            rw [he_y]; exact hsome_y
          have h2 : tryAttr (x ++ [z]) =
              some ((k :: ks) ++ '=' :: '"' :: ((v :: vs) ++ ['"']),
                (k :: ks).length + 1 + (v :: vs).length) := by
            rw [he_1]; exact hsome_1
          refine ⟨by rw [h1, h2], ?_⟩
          intro rep n h
          rw [h1] at h
          simp only [Option.some.injEq, Prod.mk.injEq] at h
          obtain ⟨-, hn⟩ := h
          have hxlen : x.length = (k :: ks).length + 1 + r2x.length := by
            conv_lhs => rw [hx, hK, hD]
            simp only [List.length_append, List.length_cons]
            omega
          have hrlen : r2x.length = (v :: vs).length + (r2x.dropWhile isValChar).length := by
            conv_lhs => rw [hr2x]
            simp only [List.length_append]
          simp only [List.length_cons] at hxlen hrlen hn ⊢
          omega
      · have h1 : tryAttr (x ++ z :: y) = none := by
          apply tryAttr_none_cond
          intro r2 _ hDe
          rw [hKy.2, hD, List.cons_append] at hDe
          exact absurd (List.cons.inj hDe).1 hd
        have h2 : tryAttr (x ++ [z]) = none := by
          apply tryAttr_none_cond
          intro r2 _ hDe
          rw [hK1.2, hD, List.cons_append] at hDe
          exact absurd (List.cons.inj hDe).1 hd
        exact ⟨by rw [h1, h2], fun rep n h => by rw [h1] at h; exact Option.noConfusion h⟩

theorem fixUnquoted_cons_some {c : Char} {cs rep : List Char} {n : Nat}
    (h : tryAttr (c :: cs) = some (rep, n)) :
    fixUnquotedAttrs (c :: cs) = rep ++ fixUnquotedAttrs ((c :: cs).drop n) :=
  scan_cons_some tryAttr_matchPos h

theorem fixUnquoted_stopN {z : Char} (hz : isValChar z = false) :
    ∀ (N : Nat) (a b : List Char), a.length ≤ N →
      fixUnquotedAttrs (a ++ z :: b) = fixUnquotedAttrs (a ++ [z]) ++ fixUnquotedAttrs b := by
  have hzk : isKeyChar z = false := isKeyChar_eq_false_of_isValChar hz
  intro N
  induction N with
  | zero =>
    intro a b ha
    cases a with
    | nil =>
      rw [List.nil_append, List.nil_append, fixUnquoted_cons_none (tryAttr_none_head hzk),
        fixUnquoted_cons_none (tryAttr_none_head hzk)]
      rfl
    | cons c a' => exact absurd ha (by simp)
  | succ N ih =>
    intro a b ha
    cases a with
    | nil =>
      rw [List.nil_append, List.nil_append, fixUnquoted_cons_none (tryAttr_none_head hzk),
        fixUnquoted_cons_none (tryAttr_none_head hzk)]
      rfl
    | cons c a' =>
      have hstop := tryAttr_stop hz (c :: a') b
      have hlen : a'.length + 1 ≤ N + 1 := by simpa using ha
      cases htry : tryAttr ((c :: a') ++ z :: b) with
      | none =>
        have htry1 : tryAttr ((c :: a') ++ [z]) = none := by
          rw [← hstop.1]; exact htry
        rw [List.cons_append] at htry
        rw [List.cons_append] at htry1
        rw [List.cons_append, List.cons_append, fixUnquoted_cons_none htry,
          fixUnquoted_cons_none htry1, ih a' b (by omega)]
        rfl
      | some rn =>
        obtain ⟨rep, n⟩ := rn
        have hn1 : 1 ≤ n := tryAttr_pos htry
        have hnle : n ≤ (c :: a').length := hstop.2 rep n htry
        have htry1 : tryAttr ((c :: a') ++ [z]) = some (rep, n) := by
          rw [← hstop.1]; exact htry
        have hd1 : ((c :: a') ++ z :: b).drop n = ((c :: a').drop n) ++ z :: b :=
          List.drop_append_of_le_length hnle
        have hd2 : ((c :: a') ++ [z]).drop n = ((c :: a').drop n) ++ [z] :=
          List.drop_append_of_le_length hnle
        rw [List.cons_append] at htry htry1 hd1 hd2
        rw [List.cons_append, List.cons_append, fixUnquoted_cons_some htry,
          fixUnquoted_cons_some htry1, hd1, hd2,
          ih ((c :: a').drop n) b
            (by simp only [List.length_drop, List.length_cons]; omega)]
        simp [List.append_assoc]

/-- Splitting a step-3 scan at a barrier character: the text before the
barrier (which keeps the barrier as its terminator) and the text after it
are rewritten independently. -/
theorem fixUnquoted_barrier {z : Char} (hz : isValChar z = false) (a b : List Char) :
    fixUnquotedAttrs (a ++ z :: b) = fixUnquotedAttrs (a ++ [z]) ++ fixUnquotedAttrs b :=
  fixUnquoted_stopN hz a.length a b le_rfl

/-! ## Characterization of the empty-attribute removal -/

theorem tryEmptyR_none_head {c : Char} {l : List Char} (h : isWs c = false) :
    tryEmptyR (c :: l) = none := by
  unfold tryEmptyR tryEmpty
  rw [List.takeWhile_cons, if_neg (by simp [h])]
  rfl

theorem tryEmptyR_match {w k post : List Char}
    (hw : w ≠ []) (hwall : ∀ c ∈ w, isWs c = true)
    (hk : k ≠ []) (hkall : ∀ c ∈ k, isKeyChar c = true) :
    tryEmptyR (w ++ (k ++ '=' :: '"' :: '"' :: post)) =
      some ([], w.length + k.length + 3) := by
  obtain ⟨a, w', rfl⟩ := List.exists_cons_of_ne_nil hw
  obtain ⟨b, k', rfl⟩ := List.exists_cons_of_ne_nil hk
  have h1 := takeWhile_all_append (p := isWs) (a :: w') ((b :: k') ++ '=' :: '"' :: '"' :: post)
    hwall (fun c t h => by
      injection h with h1 _
      subst h1
      exact not_isWs_of_isKeyChar (hkall b (by simp)))
  have h2 := takeWhile_all_append (p := isKeyChar) (b :: k') ('=' :: '"' :: '"' :: post) hkall
    (fun c t h => by injection h with h1 _; subst h1; decide)
  unfold tryEmptyR tryEmpty
  rw [h1.1, h1.2, h2.1, h2.2]
  rfl

theorem removeEmpty_single {pre w k post : List Char}
    (hpre : ∀ c ∈ pre, isWs c = false)
    (hw : w ≠ []) (hwall : ∀ c ∈ w, isWs c = true)
    (hk : k ≠ []) (hkall : ∀ c ∈ k, isKeyChar c = true) :
    removeEmptyAttrs (pre ++ (w ++ (k ++ '=' :: '"' :: '"' :: post))) =
      pre ++ removeEmptyAttrs post := by
  induction pre with
  | nil =>
    rw [List.nil_append]
    have hm := @tryEmptyR_match w k post hw hwall hk hkall
    obtain ⟨a, w', rfl⟩ := List.exists_cons_of_ne_nil hw
    rw [List.cons_append] at hm ⊢
    rw [show removeEmptyAttrs (a :: (w' ++ (k ++ '=' :: '"' :: '"' :: post))) =
      [] ++ removeEmptyAttrs ((a :: (w' ++ (k ++ '=' :: '"' :: '"' :: post))).drop
        ((a :: w').length + k.length + 3)) from scan_cons_some tryEmptyR_matchPos hm]
    have hdrop : (a :: (w' ++ (k ++ '=' :: '"' :: '"' :: post))).drop
        ((a :: w').length + k.length + 3) = post := by
      have hshape : a :: (w' ++ (k ++ '=' :: '"' :: '"' :: post)) =
          ((a :: w') ++ k ++ ['=', '"', '"']) ++ post := by
        simp [List.append_assoc]
      rw [hshape]
      exact List.drop_left' (by simp; omega)
    rw [hdrop]
  | cons c pre' ih =>
    have hc : isWs c = false := hpre c (by simp)
    rw [List.cons_append, removeEmpty_cons_none (tryEmptyR_none_head hc),
      ih (fun d hd => hpre d (by simp [hd]))]
    rfl

/-- The claim-side shape for the amended C5: a text made of whitespace-free
segments, each followed by a whitespace run and an empty attribute
`key=""`, with a final remainder after the last occurrence. -/
def emptyAttrChain (parts : List (List Char × List Char × List Char))
    (tail : List Char) : List Char :=
  parts.foldr (fun q acc => q.1 ++ (q.2.1 ++ (q.2.2 ++ '=' :: '"' :: '"' :: acc))) tail

/-! ## The request phase of `get_animated_svg` and the caller-side checks -/

/-- The fixed system instruction `SYSTEM_PROMPT` of src/main.py, treated by
the spec as an opaque configuration constant. -/
def SYSTEM_PROMPT : List Char :=
  "\nYou are a creative and whimsical SVG animator, like the team that designed the famous Microsoft Office Assistant 'Clippy'. \nYour goal is to bring static SVGs to life with personality, character, and complex, engaging animations. Don't just move elements; make them tell a small story.\n\nFollow these rules strictly:\n1.  **Think like an animator:** Analyze the user's request for a mood or personality (e.g., \"curious,\" \"sleepy,\" \"happy\"). Translate this into a sequence of animations. A \"curious\" robot might tilt its head, look left and right, and then have its antenna twitch.\n2.  **Create Complex Sequences:** Do not create simple, single, infinite loops. Chain animations together using `begin` attributes (e.g., `anim1.end`, `anim2.end + 0.5s`). Create a short, interesting, and looping story.\n3.  **Use Advanced Techniques:**\n    -   Employ `animateTransform` for expressive movements (rotation, scaling, translation).\n    -   Use `<animate>` to change attributes like `fill` for color changes.\n    -   Stagger animations. Not everything should move at once. Create a natural rhythm.\n    -   **Path Morphing (`d` attribute):** This is crucial for effects like \"waving\" or \"thinking\". To animate a path's shape, you MUST animate the `d` attribute.\n        -   Identify the key points (start, end) of the line segment to be animated.\n        -   Create one or more intermediate path shapes using cubic Bézier curves (`C`) to create the wave.\n        -   Use the `values` attribute in the `<animate>` tag to list the different `d` attribute strings, separated by semicolons. The animation should start with the original path, morph to the waved path, and then return to the original.\n        -   Example for a line from (10,80) to (90,80): `<animate attributeName=\"d\" dur=\"2s\" repeatCount=\"indefinite\" values=\"M10 80 L 90 80; M10 80 C 40 40, 60 120, 90 80; M10 80 L 90 80;\" />`\n4.  **Respect Transformations (Crucial):** When applying an `<animateTransform>` (like `rotate`, `scale`), you MUST respect the element's existing `transform` attribute.\n    -   To prevent the element from jumping to the origin (0,0), use `additive=\"sum\"`.\n    -   For rotations (`type=\"rotate\"`), you MUST calculate or estimate the element's center point (cx, cy) and specify it in the animation (e.g., `from=\"0 cx cy\"` `to=\"360 cx cy\"`) to rotate it in place.\n5.  **Identify and ID Elements:** Prioritize descriptive `id` attributes (e.g., `id=\"left-eye\"`). If they don't exist, add unique IDs to the elements you need to animate.\n6.  **Output Clean Code:** The final output MUST be ONLY the complete, raw, and valid SVG code. All attribute values must be enclosed in double quotes. Do not include comments, explanations, or Markdown fences.\n7.  **CRITICAL VALIDATION:** Ensure every attribute has a valid, non-empty value. An attribute like `from=\"\"` or `to=\"\"` is invalid and MUST NOT be generated. Every animation attribute requires a specific value.\n".toList

/-- Placeholder default of `AZURE_OPENAI_ENDPOINT`. -/
def placeholderEndpoint : List Char := "YOUR_AZURE_OPENAI_ENDPOINT_URL".toList

/-- Placeholder default of `AZURE_OPENAI_API_KEY`. -/
def placeholderApiKey : List Char := "YOUR_AZURE_OPENAI_API_KEY".toList

/-- Placeholder default of `AZURE_OPENAI_DEPLOYMENT_NAME`. -/
def placeholderDeployment : List Char := "YOUR_DEPLOYMENT_NAME".toList

/-- The three connection parameters (endpoint address, credential,
deployment identifier), read from the process environment with the
placeholder defaults above. -/
structure Config where
  endpoint : List Char
  apiKey : List Char
  deployment : List Char

/-- First fixed fragment of the f-string `user_prompt`. -/
def promptChunk1 : List Char := "\n        Here is the SVG code:\n        ---\n        ".toList

/-- Second fixed fragment of the f-string `user_prompt`. -/
def promptChunk2 : List Char := "\n        ---\n\n        Description of what the graphic shows:\n        ---\n        ".toList

/-- Third fixed fragment of the f-string `user_prompt`. -/
def promptChunk3 : List Char := "\n        ---\n\n        Animation instructions:\n        ---\n        ".toList

/-- Fourth fixed fragment of the f-string `user_prompt`. -/
def promptChunk4 : List Char := "\n        ---\n        ".toList

/-- The f-string `user_prompt` of `get_animated_svg`, interpolating the
(nbsp-cleaned) SVG code, the description and the animation instructions
between the fixed fragments. -/
def userPrompt (cleaned_svg_code description animation_instructions : List Char) : List Char :=
  promptChunk1 ++ cleaned_svg_code ++ promptChunk2 ++ description ++ promptChunk3 ++
    animation_instructions ++ promptChunk4

/-- Outcome of the phase of `get_animated_svg` that runs before any network
traffic: either the configuration check fails (`st.error` is shown and the
function returns `None` before constructing the client), or a remote
chat-completion call is issued carrying a system message and a user
message. -/
inductive ApiOutcome where
  | configError : ApiOutcome
  | remoteCall (systemMsg userMsg : List Char) : ApiOutcome
deriving DecidableEq

/-- The pre-response phase of `get_animated_svg` from src/main.py: clean the
input SVG of non-breaking spaces, refuse to call the endpoint if any
connection parameter still equals its placeholder, otherwise build the
request from `SYSTEM_PROMPT` and `userPrompt`.  (The handling of the
response text is `clean_svg_response`, modelled separately.) -/
def get_animated_svg (cfg : Config) (svg_code description animation_instructions : List Char) :
    ApiOutcome :=
  let cleaned_svg_code := replaceNbsp svg_code
  if cfg.endpoint ≠ placeholderEndpoint ∧ cfg.apiKey ≠ placeholderApiKey ∧
      cfg.deployment ≠ placeholderDeployment then
    ApiOutcome.remoteCall SYSTEM_PROMPT
      (userPrompt cleaned_svg_code description animation_instructions)
  else ApiOutcome.configError

/-- The caller-side acceptance check of the `animate_button` handler:
`animated_svg_result and animated_svg_result.strip().startswith('<svg')`.
Only an accepted result is rendered and offered for download. -/
def acceptsResult (animated_svg_result : Option (List Char)) : Bool :=
  match animated_svg_result with
  | none => false
  | some s => !s.isEmpty && ("<svg".toList).isPrefixOf (stripWs s)

/-- Substring test: `pat` occurs contiguously in `s`. -/
def containsSub (pat : List Char) : List Char → Bool
  | [] => pat.isEmpty
  | c :: cs => pat.isPrefixOf (c :: cs) || containsSub pat cs

/-! ## Remaining helper lemmas for the claims -/

theorem isPrefixOf_append_self : ∀ (x b : List Char), (x.isPrefixOf (x ++ b)) = true := by
  intro x b
  induction x with
  | nil => cases b <;> rfl
  | cons c x' ih => simp [List.isPrefixOf, ih]

theorem containsSub_middle : ∀ (a x b : List Char), containsSub x (a ++ (x ++ b)) = true := by
  intro a x b
  induction a with
  | nil =>
    rw [List.nil_append]
    have hpre := isPrefixOf_append_self x b
    cases hxb : x ++ b with
    | nil =>
      have : x = [] := by
        rcases List.append_eq_nil.mp hxb with ⟨h1, -⟩
        exact h1
      rw [this]
      rfl
    | cons c cs =>
      rw [hxb] at hpre
      simp [containsSub, hpre]
  | cons c a' ih =>
    rw [List.cons_append]
    simp [containsSub, ih]

theorem replaceNbsp_eq_self {s : List Char} (h : nbsp ∉ s) : replaceNbsp s = s := by
  induction s with
  | nil => rfl
  | cons c cs ih =>
    have hc : c ≠ nbsp := fun hcc => h (by simp [hcc])
    simp only [replaceNbsp, List.map_cons, if_neg hc]
    exact congrArg (c :: ·) (ih (fun hm => h (by simp [hm])))

/-! ## The claims -/

/-- C1: for the raw fenced input
`` ```svg\n<svg width="1" transform=scale(2) from="">content</svg>\n``` ``
the sanitizer `clean_svg_response` returns exactly
`<svg width="1" transform="scale(2)">content</svg>`: the fences are
stripped, the unquoted `transform` value is quoted, and the empty `from`
attribute is removed together with its leading space. -/
theorem c1_end_to_end :
    clean_svg_response
      (some ("```svg\n<svg width=\"1\" transform=scale(2) from=\"\">content</svg>\n```".toList)) =
    "<svg width=\"1\" transform=\"scale(2)\">content</svg>".toList := by decide

/-- C7: absent (`None`) or empty raw input yields the empty string from
`clean_svg_response` (total function, no exception path), and the
caller-side acceptance check classifies that empty result as rejected, so
it is neither rendered nor offered for download. -/
theorem c7_empty_input :
    clean_svg_response none = [] ∧
    clean_svg_response (some []) = [] ∧
    acceptsResult (some (clean_svg_response none)) = false ∧
    acceptsResult (some (clean_svg_response (some []))) = false ∧
    acceptsResult none = false := by decide

/-- C8: if any of the three connection parameters still equals its named
placeholder default, `get_animated_svg` reports a configuration error for
every input, without constructing the client or issuing a remote call. -/
theorem c8_config_guard :
    ∀ (cfg : Config) (svg_code description animation_instructions : List Char),
      (cfg.endpoint = placeholderEndpoint ∨ cfg.apiKey = placeholderApiKey ∨
        cfg.deployment = placeholderDeployment) →
      get_animated_svg cfg svg_code description animation_instructions =
        ApiOutcome.configError := by
  intro cfg svg d a h
  unfold get_animated_svg
  rw [if_neg]
  intro ⟨h1, h2, h3⟩
  rcases h with h | h | h
  · exact h1 h
  · exact h2 h
  · exact h3 h

/-- C8 witness: with all three parameters left at their placeholders, the
outcome is a configuration error. -/
theorem c8_config_guard_witness :
    get_animated_svg ⟨placeholderEndpoint, placeholderApiKey, placeholderDeployment⟩ [] [] [] =
      ApiOutcome.configError :=
  c8_config_guard ⟨placeholderEndpoint, placeholderApiKey, placeholderDeployment⟩ [] [] []
    (Or.inl rfl)

/-- C2 counterexample: the raw text `` ```xml\n<svg>a</svg>\n``` `` is a
fenced block with a language tag (`xml`) whose content begins with the
opening root tag and ends with the matching closing tag, yet the
fence-extraction step keeps the whole text as-is instead of replacing it
with the fenced inner content: only the tag `svg` (or no tag at all) is
tolerated by the code. -/
theorem c2_counterexample :
    ("```xml\n<svg>a</svg>\n```".toList =
      "```".toList ++ "xml".toList ++ "\n".toList ++ "<svg>a</svg>".toList ++
        "\n".toList ++ "```".toList) ∧
    (∀ c ∈ "\n".toList, isWs c = true) ∧
    ("<svg>a</svg>".toList = "<svg".toList ++ ">a".toList ++ "</svg>".toList) ∧
    extractFenceStep ("```xml\n<svg>a</svg>\n```".toList) =
      "```xml\n<svg>a</svg>\n```".toList ∧
    extractFenceStep ("```xml\n<svg>a</svg>\n```".toList) ≠ "<svg>a</svg>".toList := by
  decide

/-- C2 (amended): for every raw text containing a fenced block — a
triple-backtick fence, an optional `svg` language tag (case-insensitive; any
other language tag defeats the search), optional whitespace, content
beginning with the opening root tag `<svg` and ending with the matching
closing tag `</svg>` (case-insensitive, possibly spanning lines), optional
whitespace and a closing fence — the fence-extraction step replaces the
working text with exactly the inner content of such a fenced block,
discarding all surrounding prose; for every raw text with no such fenced
block the text is kept as-is. -/
theorem c2_fence_extraction :
    ∀ text : List Char,
      ((∃ inner, FencedBlock text inner) →
        ∃ inner, FencedBlock text inner ∧ extractFenceStep text = inner) ∧
      ((¬ ∃ inner, FencedBlock text inner) → extractFenceStep text = text) := by
  intro text
  constructor
  · rintro ⟨inner, hfb⟩
    obtain ⟨g, hg⟩ := Option.isSome_iff_exists.mp (fencedBlock_isSome hfb)
    refine ⟨g, searchFence_fencedBlock hg, ?_⟩
    unfold extractFenceStep
    rw [hg]
  · intro hne
    unfold extractFenceStep
    cases hs : searchFence text with
    | none => rfl
    | some g => exact absurd ⟨g, searchFence_fencedBlock hs⟩ hne

/-- C2 witness: on the fenced scenario-A text the extraction step returns
the inner content of a fenced block; the closing tag is matched under the
full `IGNORECASE` folding, so `</ſvg>` (U+017F long s) also closes the
block and `<svg>a</ſvg>` is extracted; on the unfenced text `hello` the
step is the identity. -/
theorem c2_fence_extraction_witness :
    (∃ inner,
      FencedBlock
        ("```svg\n<svg width=\"1\" transform=scale(2) from=\"\">content</svg>\n```".toList)
        inner ∧
      extractFenceStep
        ("```svg\n<svg width=\"1\" transform=scale(2) from=\"\">content</svg>\n```".toList) =
        inner) ∧
    (∃ inner,
      FencedBlock ("```svg\n<svg>a</ſvg>\n```".toList) inner ∧
      extractFenceStep ("```svg\n<svg>a</ſvg>\n```".toList) = inner) ∧
    extractFenceStep ("```svg\n<svg>a</ſvg>\n```".toList) = "<svg>a</ſvg>".toList ∧
    extractFenceStep ("hello".toList) = "hello".toList :=
  ⟨(c2_fence_extraction _).1
    ⟨"<svg width=\"1\" transform=scale(2) from=\"\">content</svg>".toList,
      [], "```".toList, "svg".toList, "\n".toList, "<svg".toList,
      " width=\"1\" transform=scale(2) from=\"\">content".toList, "</svg>".toList,
      "\n".toList, "```".toList, [],
      by decide, by decide, Or.inr (by decide), by decide, by decide, by decide, by decide,
      by decide, by decide⟩,
   (c2_fence_extraction _).1
    ⟨"<svg>a</ſvg>".toList,
      [], "```".toList, "svg".toList, "\n".toList, "<svg".toList,
      ">a".toList, "</ſvg>".toList, "\n".toList, "```".toList, [],
      by decide, by decide, Or.inr (by decide), by decide, by decide, by decide, by decide,
      by decide, by decide⟩,
   by decide,
   (c2_fence_extraction _).2
    (fun ⟨_, hfb⟩ => absurd (fencedBlock_isSome hfb) (by decide))⟩

/-- C10 counterexample: for the fenced input
`` ```svg\n<svg>a</svg>x</svg>\n``` `` the first occurrence of the closing
root tag is the one after `<svg>a` (the prefix `<svg>a` contains no
`</svg>`), yet the extracted inner content is the whole
`<svg>a</svg>x</svg>`: nothing between the first closing tag and the
document's true end is discarded, because that first closing tag is not
followed by whitespace and a closing fence. -/
theorem c10_counterexample :
    searchFence ("```svg\n<svg>a</svg>x</svg>\n```".toList) =
      some ("<svg>a</svg>x</svg>".toList) ∧
    ("<svg>a</svg>x</svg>".toList =
      "<svg>a</svg>".toList ++ "x</svg>".toList) ∧
    containsSub ("</svg>".toList) ("<svg>a".toList) = false ∧
    "x</svg>".toList ≠ ([] : List Char) ∧
    extractFenceStep ("```svg\n<svg>a</svg>x</svg>\n```".toList) ≠
      "<svg>a</svg>".toList := by
  decide

/-- C10 (amended): whenever the fence search succeeds, the extracted inner
content is `o4 ++ mid ++ c6` where `o4` matches `<svg` and `c6` matches
`</svg>` case-insensitively, and `c6` is the FIRST closing tag after the
opening tag that is followed by optional whitespace and a closing fence
(`closerHere`): at every earlier split of the scanned tail the continuation
fails, so content is dropped after a closing tag only when that tag is
directly followed by the fence. -/
theorem c10_lazy_close :
    ∀ (t g : List Char), searchFence t = some g →
      ∃ o4 mid c6 tail,
        g = o4 ++ mid ++ c6 ∧
        o4.map lowerc = "<svg".toList ∧
        c6.map lowerc = "</svg>".toList ∧
        closerHere (c6 ++ tail) = true ∧
        (∀ a' b', mid ++ (c6 ++ tail) = a' ++ b' → a'.length < mid.length →
          closerHere b' = false) := by
  intro t g h
  obtain ⟨pre, s', rfl, hmat⟩ := searchFence_sound _ _ h
  obtain ⟨f1, tg, rest, rfl, -, -, hA⟩ := matchAt_sound hmat
  obtain ⟨w1, o4, mid, c6, w2, f2, post, rfl, -, ho4, hc6, -, -, hg, hclose, hmin⟩ :=
    matchAfterTag_sound hA
  refine ⟨o4, mid, c6, w2 ++ (f2 ++ post), hg, ho4, hc6, ?_, ?_⟩
  · have : c6 ++ (w2 ++ (f2 ++ post)) = c6 ++ w2 ++ f2 ++ post := by
      simp [List.append_assoc]
    rw [this]
    exact hclose
  · intro a' b' heq hlen
    refine hmin a' b' ?_ hlen
    rw [← heq]
    simp [List.append_assoc]

/-- C10 witness: the lazy-close characterization applied to the
counterexample input, and to an input whose first accepted closing tag is
the case-folded `</ſvg>` (U+017F long s): the lazy scan stops there because
that tag is directly followed by whitespace and a fence, and the later
`x</svg>` is left outside the capture. -/
theorem c10_lazy_close_witness :
    (searchFence ("```svg\n<svg>a</svg>x</svg>\n```".toList) =
      some ("<svg>a</svg>x</svg>".toList) ∧
    ∃ o4 mid c6 tail,
      "<svg>a</svg>x</svg>".toList = o4 ++ mid ++ c6 ∧
      o4.map lowerc = "<svg".toList ∧
      c6.map lowerc = "</svg>".toList ∧
      closerHere (c6 ++ tail) = true ∧
      (∀ a' b', mid ++ (c6 ++ tail) = a' ++ b' → a'.length < mid.length →
        closerHere b' = false)) ∧
    (searchFence ("```svg\n<svg>a</ſvg>\n```x</svg>\n```".toList) =
      some ("<svg>a</ſvg>".toList) ∧
    ∃ o4 mid c6 tail,
      "<svg>a</ſvg>".toList = o4 ++ mid ++ c6 ∧
      o4.map lowerc = "<svg".toList ∧
      c6.map lowerc = "</svg>".toList ∧
      closerHere (c6 ++ tail) = true ∧
      (∀ a' b', mid ++ (c6 ++ tail) = a' ++ b' → a'.length < mid.length →
        closerHere b' = false)) :=
  ⟨⟨by decide,
    c10_lazy_close ("```svg\n<svg>a</svg>x</svg>\n```".toList)
      ("<svg>a</svg>x</svg>".toList) (by decide)⟩,
   ⟨by decide,
    c10_lazy_close ("```svg\n<svg>a</ſvg>\n```x</svg>\n```".toList)
      ("<svg>a</ſvg>".toList) (by decide)⟩⟩

/-- C3 counterexample: in the raw text `a=b=c` the occurrence `b=c` (key
`b`, a run of letters; value `c`, a non-empty run with no whitespace, `>`
or quote) is NOT turned into `b="c"` by the sanitizer: the leftmost scan
already consumed `b=c` as the value of the earlier occurrence `a=b=c`, and
the output `a="b=c"` does not contain `b="c"`. -/
theorem c3_counterexample :
    ("a=b=c".toList = "a=".toList ++ "b".toList ++ '=' :: ("c".toList ++ [])) ∧
    (∀ c ∈ "b".toList, isKeyChar c = true) ∧
    (∀ c ∈ "c".toList, isValChar c = true) ∧
    ("b".toList ≠ []) ∧ ("c".toList ≠ []) ∧
    clean_svg_response (some ("a=b=c".toList)) = "a=\"b=c\"".toList ∧
    containsSub ("b=\"c\"".toList) (clean_svg_response (some ("a=b=c".toList))) = false := by
  decide

/-- C3 (amended): the unquoted-attribute repair wraps in double quotes
every occurrence `key=value` — key a non-empty run of name characters,
value a non-empty maximal run of value characters — that the left-to-right
scan reaches directly: it suffices that the text before the occurrence
contains no attribute-name character, or that the occurrence is
immediately preceded by a character that cannot occur inside a match
(whitespace, a double quote or `>`), since no match spans such a barrier.
The occurrence becomes `key="value"` and the step's output contains
`key="value"`; only occurrences swallowed by an earlier overlapping match
(such as `b=c` inside `a=b=c`) are exempt. -/
theorem c3_unquoted_rewrite :
    ∀ (pre k v post : List Char),
      ((∀ c ∈ pre, isKeyChar c = false) ∨
        (∃ pre' z, pre = pre' ++ [z] ∧ isValChar z = false)) →
      k ≠ [] → (∀ c ∈ k, isKeyChar c = true) →
      v ≠ [] → (∀ c ∈ v, isValChar c = true) →
      (∀ c ∈ post.take 1, isValChar c = false) →
      fixUnquotedAttrs (pre ++ (k ++ '=' :: (v ++ post))) =
        fixUnquotedAttrs pre ++ (k ++ '=' :: '"' :: v ++ '"' :: fixUnquotedAttrs post) ∧
      containsSub (k ++ '=' :: '"' :: (v ++ ['"']))
        (fixUnquotedAttrs (pre ++ (k ++ '=' :: (v ++ post)))) = true := by
  intro pre k v post hpre hk hkall hv hvall hpost1
  have hpost : ∀ c t, post = c :: t → isValChar c = false := fun c t h =>
    hpost1 c (by rw [h]; simp)
  have heq : fixUnquotedAttrs (pre ++ (k ++ '=' :: (v ++ post))) =
      fixUnquotedAttrs pre ++ (k ++ '=' :: '"' :: v ++ '"' :: fixUnquotedAttrs post) := by
    rcases hpre with hfree | ⟨pre', z, hpz, hzval⟩
    · have hfix : fixUnquotedAttrs pre = pre := by
        have h0 := fixUnquoted_emit_all hfree []
        rw [List.append_nil, show fixUnquotedAttrs ([] : List Char) = [] from rfl,
          List.append_nil] at h0
        exact h0
      rw [fixUnquoted_emit_all hfree, fixUnquoted_rewrites_one hk hkall hv hvall hpost, hfix]
    · subst hpz
      have hsh : (pre' ++ [z]) ++ (k ++ '=' :: (v ++ post)) =
          pre' ++ z :: (k ++ '=' :: (v ++ post)) := by simp
      rw [hsh, fixUnquoted_barrier hzval pre' (k ++ '=' :: (v ++ post)),
        fixUnquoted_rewrites_one hk hkall hv hvall hpost]
  constructor
  · exact heq
  · rw [heq]
    have hshape :
        fixUnquotedAttrs pre ++ (k ++ '=' :: '"' :: v ++ '"' :: fixUnquotedAttrs post) =
        fixUnquotedAttrs pre ++ ((k ++ '=' :: '"' :: (v ++ ['"'])) ++ fixUnquotedAttrs post) := by
      simp [List.append_assoc]
    rw [hshape]
    exact containsSub_middle _ _ _

/-- C3 witness: the rewrite at a concrete occurrence inside an opening tag,
reached after the whitespace barrier that follows the tag name. -/
theorem c3_unquoted_rewrite_witness :
    (("<svg ".toList = "<svg".toList ++ [' '] ∧ isValChar ' ' = false) ∧
      (∀ c ∈ "transform".toList, isKeyChar c = true) ∧
      (∀ c ∈ "scale(2)".toList, isValChar c = true) ∧
      (∀ c ∈ (">".toList).take 1, isValChar c = false)) ∧
    fixUnquotedAttrs ("<svg ".toList ++ ("transform".toList ++ '=' ::
        ("scale(2)".toList ++ ">".toList))) =
      fixUnquotedAttrs ("<svg ".toList) ++ ("transform".toList ++ '=' :: '"' ::
        "scale(2)".toList ++ '"' :: fixUnquotedAttrs (">".toList)) ∧
    containsSub ("transform".toList ++ '=' :: '"' :: ("scale(2)".toList ++ ['"']))
      (fixUnquotedAttrs ("<svg ".toList ++ ("transform".toList ++ '=' ::
        ("scale(2)".toList ++ ">".toList)))) = true :=
  ⟨⟨⟨by decide, by decide⟩, by decide, by decide, by decide⟩,
   (c3_unquoted_rewrite "<svg ".toList "transform".toList "scale(2)".toList ">".toList
    (Or.inr ⟨"<svg".toList, ' ', by decide, by decide⟩)
    (by decide) (by decide) (by decide) (by decide) (by decide)).1,
   (c3_unquoted_rewrite "<svg ".toList "transform".toList "scale(2)".toList ">".toList
    (Or.inr ⟨"<svg".toList, ' ', by decide, by decide⟩)
    (by decide) (by decide) (by decide) (by decide) (by decide)).2⟩

/-- C4 counterexample: the already double-quoted attribute value in
`style="a=b"` contains an `=` character, and the quoting step rewrites its
inside: the sanitized output is `style="a="b""`, not the unchanged input. -/
theorem c4_counterexample :
    ("style=\"a=b\"".toList =
      "style".toList ++ '=' :: '"' :: ("a=b".toList ++ '"' :: [])) ∧
    clean_svg_response (some ("style=\"a=b\"".toList)) = "style=\"a=\"b\"\"".toList ∧
    clean_svg_response (some ("style=\"a=b\"".toList)) ≠ "style=\"a=b\"".toList := by
  decide

/-- C4 (amended): the unquoted-attribute repair leaves an already
double-quoted attribute assignment `key="value"` unchanged provided (i) the
value contains no quote and no embedded `key=value` pattern (no consecutive
"name character, '=', value character" triple) and (ii) the scan reaches
the assignment directly: the text before it contains no name character, or
the assignment is immediately preceded by a character that cannot occur
inside a match (whitespace, a double quote or `>`). A quoted value that
does contain such a triple is rewritten inside (see the counterexample),
and an assignment absorbed into an earlier match's value, as in
`x=style="color:red"`, is not protected. -/
theorem c4_quoted_preserved :
    ∀ (pre k v post : List Char),
      ((∀ c ∈ pre, isKeyChar c = false) ∨
        (∃ pre' z, pre = pre' ++ [z] ∧ isValChar z = false)) →
      (∀ c ∈ k, isKeyChar c = true) →
      '"' ∉ v →
      noKev v = true →
      fixUnquotedAttrs (pre ++ (k ++ '=' :: '"' :: (v ++ '"' :: post))) =
        fixUnquotedAttrs pre ++ (k ++ '=' :: '"' :: (v ++ '"' :: fixUnquotedAttrs post)) := by
  intro pre k v post hpre hkall hq hnk
  rcases hpre with hfree | ⟨pre', z, hpz, hzval⟩
  · have hfix : fixUnquotedAttrs pre = pre := by
      have h0 := fixUnquoted_emit_all hfree []
      rw [List.append_nil, show fixUnquotedAttrs ([] : List Char) = [] from rfl,
        List.append_nil] at h0
      exact h0
    rw [fixUnquoted_emit_all hfree, fixUnquoted_key_quote _ _ hkall,
      fixUnquoted_val_walk _ _ hnk, hfix]
  · subst hpz
    have hsh : (pre' ++ [z]) ++ (k ++ '=' :: '"' :: (v ++ '"' :: post)) =
        pre' ++ z :: (k ++ '=' :: '"' :: (v ++ '"' :: post)) := by simp
    rw [hsh, fixUnquoted_barrier hzval pre' (k ++ '=' :: '"' :: (v ++ '"' :: post)),
      fixUnquoted_key_quote _ _ hkall, fixUnquoted_val_walk _ _ hnk]

/-- C4 witness: the quoted attribute of `<a style="color:red">`, reached
after the whitespace barrier, passes through the repair untouched. -/
theorem c4_quoted_preserved_witness :
    (("<a ".toList = "<a".toList ++ [' '] ∧ isValChar ' ' = false) ∧
      (∀ c ∈ "style".toList, isKeyChar c = true) ∧
      '"' ∉ "color:red".toList ∧ noKev ("color:red".toList) = true) ∧
    fixUnquotedAttrs ("<a ".toList ++ ("style".toList ++ '=' :: '"' ::
        ("color:red".toList ++ '"' :: ">".toList))) =
      fixUnquotedAttrs ("<a ".toList) ++ ("style".toList ++ '=' :: '"' ::
        ("color:red".toList ++ '"' :: fixUnquotedAttrs (">".toList))) :=
  ⟨⟨⟨by decide, by decide⟩, by decide, by decide, by decide⟩,
   c4_quoted_preserved "<a ".toList "style".toList "color:red".toList ">".toList
    (Or.inr ⟨"<a".toList, ' ', by decide, by decide⟩)
    (by decide) (by decide) (by decide)⟩

/-- C5 counterexample: the raw text `from=""` is an occurrence of the
pattern `key=""` at the very start of the text; since the removal pattern
requires at least one whitespace character before the attribute name, the
sanitizer returns the text unchanged and the output still contains
`from=""`. -/
theorem c5_counterexample :
    ("from=\"\"".toList = "from".toList ++ '=' :: '"' :: '"' :: []) ∧
    (∀ c ∈ "from".toList, isKeyChar c = true) ∧
    clean_svg_response (some ("from=\"\"".toList)) = "from=\"\"".toList ∧
    containsSub ("from=\"\"".toList)
      (clean_svg_response (some ("from=\"\"".toList))) = true := by
  decide

/-- C5 (amended): every occurrence of `key=""` that is immediately
preceded by at least one whitespace character is deleted by the
empty-attribute step together with its entire leading whitespace run,
however many such occurrences the text contains: a text of whitespace-free
segments, each followed by a whitespace run and an empty attribute,
collapses to the segments glued directly together (so no double space
remains at any removal site), with the remainder after the last occurrence
processed recursively. An occurrence at the very start of the text, with
no preceding whitespace, is NOT removed. -/
theorem c5_empty_attr_removed :
    ∀ (parts : List (List Char × List Char × List Char)) (tail : List Char),
      (∀ q ∈ parts, (∀ c ∈ q.1, isWs c = false) ∧
        q.2.1 ≠ [] ∧ (∀ c ∈ q.2.1, isWs c = true) ∧
        q.2.2 ≠ [] ∧ (∀ c ∈ q.2.2, isKeyChar c = true)) →
      removeEmptyAttrs (emptyAttrChain parts tail) =
        (parts.map fun q => q.1).flatten ++ removeEmptyAttrs tail := by
  intro parts
  induction parts with
  | nil => intro tail _; rfl
  | cons p parts' ih =>
    intro tail hall
    obtain ⟨hpre, hw, hwall, hk, hkall⟩ := hall p (by simp)
    have hstep : emptyAttrChain (p :: parts') tail =
        p.1 ++ (p.2.1 ++ (p.2.2 ++ '=' :: '"' :: '"' :: emptyAttrChain parts' tail)) := rfl
    rw [hstep, removeEmpty_single hpre hw hwall hk hkall,
      ih tail (fun q hq => hall q (by simp [hq]))]
    simp [List.append_assoc]

/-- C5 witness: both empty attributes of `<svg a="" b="">` are removed,
leaving `<svg>`. -/
theorem c5_empty_attr_removed_witness :
    emptyAttrChain [("<svg".toList, " ".toList, "a".toList), ([], " ".toList, "b".toList)]
        (">".toList) = "<svg a=\"\" b=\"\">".toList ∧
    removeEmptyAttrs ("<svg a=\"\" b=\"\">".toList) = "<svg>".toList ∧
    removeEmptyAttrs (emptyAttrChain
        [("<svg".toList, " ".toList, "a".toList), ([], " ".toList, "b".toList)] (">".toList)) =
      ([("<svg".toList, " ".toList, "a".toList), ([], " ".toList, "b".toList)].map
        fun q => q.1).flatten ++ removeEmptyAttrs (">".toList) :=
  ⟨by decide, by decide,
   c5_empty_attr_removed
    [("<svg".toList, " ".toList, "a".toList), ([], " ".toList, "b".toList)]
    (">".toList) (by decide)⟩

/-- C6 counterexample: sanitization is not idempotent. On `a=b=c` the first
pass produces `a="b=c"`, whose quoted value still contains the pattern
`b=c`; a second pass quotes that inner occurrence and yields `a="b="c""`,
different from the first pass's output. -/
theorem c6_counterexample :
    clean_svg_response (some ("a=b=c".toList)) = "a=\"b=c\"".toList ∧
    clean_svg_response (some (clean_svg_response (some ("a=b=c".toList)))) =
      "a=\"b=\"c\"\"".toList ∧
    clean_svg_response (some (clean_svg_response (some ("a=b=c".toList)))) ≠
      clean_svg_response (some ("a=b=c".toList)) := by
  decide

/-- C6 (amended): applying sanitization twice yields the same result as
applying it once whenever the first pass's output is left unchanged by
each individual repair step (a sufficient condition): no fenced block
matches in it, it carries no non-breaking space or surrounding whitespace,
the unquoted-attribute rewrite fixes nothing in it, and the
empty-attribute removal removes nothing from it.  In general idempotence
fails (see the counterexample): the quoting step can leave a fresh
`key=value` pattern inside the quotes it inserts. -/
theorem c6_idempotent_on_fixed :
    ∀ t : List Char,
      searchFence (clean_svg_response (some t)) = none →
      replaceNbsp (clean_svg_response (some t)) = clean_svg_response (some t) →
      stripWs (clean_svg_response (some t)) = clean_svg_response (some t) →
      fixUnquotedAttrs (clean_svg_response (some t)) = clean_svg_response (some t) →
      removeEmptyAttrs (clean_svg_response (some t)) = clean_svg_response (some t) →
      clean_svg_response (some (clean_svg_response (some t))) =
        clean_svg_response (some t) := by
  intro t h1 h2 h3 h4 h5
  set y := clean_svg_response (some t) with hydef
  by_cases hy : y.isEmpty = true
  · have hy' : y = [] := by
      cases hcl : y with
      | nil => rfl
      | cons c cs => rw [hcl] at hy; simp at hy
    rw [hy']
    rfl
  · have hext : extractFenceStep y = y := by
      unfold extractFenceStep
      rw [h1]
    show (if y.isEmpty = true then ([] : List Char)
      else removeEmptyAttrs (fixUnquotedAttrs (stripWs (replaceNbsp (extractFenceStep y))))) = y
    rw [if_neg hy, hext, h2, h3, h4, h5]

/-- C6 witness: on the input `a=b` the first pass yields `a="b"`, on which
every step is trivial, and the second pass returns it unchanged. -/
theorem c6_idempotent_on_fixed_witness :
    (searchFence (clean_svg_response (some ("a=b".toList))) = none ∧
      replaceNbsp (clean_svg_response (some ("a=b".toList))) =
        clean_svg_response (some ("a=b".toList)) ∧
      stripWs (clean_svg_response (some ("a=b".toList))) =
        clean_svg_response (some ("a=b".toList)) ∧
      fixUnquotedAttrs (clean_svg_response (some ("a=b".toList))) =
        clean_svg_response (some ("a=b".toList)) ∧
      removeEmptyAttrs (clean_svg_response (some ("a=b".toList))) =
        clean_svg_response (some ("a=b".toList))) ∧
    clean_svg_response (some (clean_svg_response (some ("a=b".toList)))) =
      clean_svg_response (some ("a=b".toList)) :=
  ⟨⟨by decide, by decide, by decide, by decide, by decide⟩,
   c6_idempotent_on_fixed ("a=b".toList) (by decide) (by decide) (by decide) (by decide)
    (by decide)⟩

/-- C9 counterexample: the original markup is NOT interpolated verbatim:
`get_animated_svg` replaces each non-breaking space in the SVG input with a
plain space before building the user message, so for the input
`['a', nbsp, 'b']` the message sent to the endpoint does not contain the
input string. -/
theorem c9_counterexample :
    get_animated_svg ⟨"e".toList, "k".toList, "d".toList⟩ ['a', nbsp, 'b']
        ("d1".toList) ("a1".toList) =
      ApiOutcome.remoteCall SYSTEM_PROMPT
        (userPrompt (replaceNbsp ['a', nbsp, 'b']) ("d1".toList) ("a1".toList)) ∧
    replaceNbsp ['a', nbsp, 'b'] = ['a', ' ', 'b'] ∧
    containsSub ['a', nbsp, 'b']
      (userPrompt (replaceNbsp ['a', nbsp, 'b']) ("d1".toList) ("a1".toList)) = false :=
  ⟨rfl, by decide, by decide⟩

/-- C9 (amended): with a fully configured client, the request is a remote
call carrying the fixed system instruction and the user message that
interpolates the description and the desired animation verbatim and the
original markup after replacing each non-breaking space with a plain space;
in particular a markup input containing no non-breaking space is
interpolated verbatim as well. -/
theorem c9_verbatim_message :
    ∀ (cfg : Config) (svg_code description animation_instructions : List Char),
      cfg.endpoint ≠ placeholderEndpoint → cfg.apiKey ≠ placeholderApiKey →
      cfg.deployment ≠ placeholderDeployment →
      get_animated_svg cfg svg_code description animation_instructions =
        ApiOutcome.remoteCall SYSTEM_PROMPT
          (userPrompt (replaceNbsp svg_code) description animation_instructions) ∧
      (∃ x y, x ++ description ++ y =
        userPrompt (replaceNbsp svg_code) description animation_instructions) ∧
      (∃ x y, x ++ animation_instructions ++ y =
        userPrompt (replaceNbsp svg_code) description animation_instructions) ∧
      (∃ x y, x ++ replaceNbsp svg_code ++ y =
        userPrompt (replaceNbsp svg_code) description animation_instructions) ∧
      (nbsp ∉ svg_code → replaceNbsp svg_code = svg_code) := by
  intro cfg s d a h1 h2 h3
  refine ⟨?_,
    ⟨promptChunk1 ++ replaceNbsp s ++ promptChunk2,
      promptChunk3 ++ a ++ promptChunk4, ?_⟩,
    ⟨promptChunk1 ++ replaceNbsp s ++ promptChunk2 ++ d ++ promptChunk3,
      promptChunk4, ?_⟩,
    ⟨promptChunk1, promptChunk2 ++ d ++ promptChunk3 ++ a ++ promptChunk4, ?_⟩,
    fun hn => replaceNbsp_eq_self hn⟩
  · unfold get_animated_svg
    rw [if_pos ⟨h1, h2, h3⟩]
  · simp [userPrompt, List.append_assoc]
  · simp [userPrompt, List.append_assoc]
  · simp [userPrompt, List.append_assoc]

/-- C9 witness: the interpolation facts at concrete inputs. -/
theorem c9_verbatim_message_witness :
    ("e".toList ≠ placeholderEndpoint ∧ "k".toList ≠ placeholderApiKey ∧
      "d".toList ≠ placeholderDeployment) ∧
    (get_animated_svg ⟨"e".toList, "k".toList, "d".toList⟩ ("x".toList) ("desc".toList)
        ("anim".toList) =
      ApiOutcome.remoteCall SYSTEM_PROMPT
        (userPrompt (replaceNbsp ("x".toList)) ("desc".toList) ("anim".toList)) ∧
      (∃ x y, x ++ "desc".toList ++ y =
        userPrompt (replaceNbsp ("x".toList)) ("desc".toList) ("anim".toList)) ∧
      (∃ x y, x ++ "anim".toList ++ y =
        userPrompt (replaceNbsp ("x".toList)) ("desc".toList) ("anim".toList)) ∧
      (∃ x y, x ++ replaceNbsp ("x".toList) ++ y =
        userPrompt (replaceNbsp ("x".toList)) ("desc".toList) ("anim".toList)) ∧
      (nbsp ∉ "x".toList → replaceNbsp ("x".toList) = "x".toList)) :=
  ⟨⟨by decide, by decide, by decide⟩,
   c9_verbatim_message ⟨"e".toList, "k".toList, "d".toList⟩ ("x".toList) ("desc".toList)
    ("anim".toList) (by decide) (by decide) (by decide)⟩
